import Mathlib

/-!
Verification development for the `ls-rs` directory-listing utility
(single source file `src/main.rs`).

The definitions below are a shallow embedding of the Rust source:
pure fragments become Lean functions, filesystem primitives become
explicit function parameters, `u64`/`i64` become `Nat`/`Int`, and the
`f64` arithmetic in `format_size` becomes exact `ℚ` arithmetic (the
source only multiplies/divides by the power of two 1024, which is exact
in binary floating point for integer inputs below 2^53; theorems about
`format_size` therefore restrict to that range).

Rust's `Ordering::reverse` is Lean's `Ordering.swap`.
Rust's `str::to_lowercase` is modelled per `Char` (its ASCII fragment,
which is all the listings' comparisons need); Rust `String` comparison
is byte-wise on UTF-8, which coincides with lexicographic comparison of
the code-point sequences, modelled by `listCmp` below.
-/

/-! ### Ordering helpers -/

/-- Apply `Ordering.swap` when the flag is set.  This is the
`if config.reverse { cmp.reverse() } else { cmp }` pattern of the source. -/
def condSwap (rev : Bool) (o : Ordering) : Ordering :=
  if rev then o.swap else o

/-- Lexicographic combination: the second comparison decides only when the
first is `eq`.  Normal form for the tie-break pattern of `list_directory`. -/
def lexO (a b : Ordering) : Ordering :=
  if a = Ordering.eq then b else a

theorem ordSwap_swap (o : Ordering) : o.swap.swap = o := by
  cases o <;> rfl

theorem ordSwap_eq_iff (o : Ordering) : o.swap = Ordering.eq ↔ o = Ordering.eq := by
  cases o <;> simp [Ordering.swap]

theorem ordSwap_lt_iff (o : Ordering) : o.swap = Ordering.lt ↔ o = Ordering.gt := by
  cases o <;> simp [Ordering.swap]

theorem ordSwap_gt_iff (o : Ordering) : o.swap = Ordering.gt ↔ o = Ordering.lt := by
  cases o <;> simp [Ordering.swap]

theorem condSwap_false (o : Ordering) : condSwap false o = o := rfl

theorem condSwap_true (o : Ordering) : condSwap true o = o.swap := rfl

theorem lexO_eq_iff (a b : Ordering) :
    lexO a b = Ordering.eq ↔ a = Ordering.eq ∧ b = Ordering.eq := by
  cases a <;> simp [lexO]

theorem lexO_swap (a b : Ordering) : (lexO a b).swap = lexO a.swap b.swap := by
  cases a <;> cases b <;> rfl

/-! ### Integer comparators

`natCmp`/`intCmp` model Rust `Ord::cmp` on `u64`/`i64`: the usual
trichotomy. -/

/-- Trichotomy comparator on `Nat`, the model of `u64::cmp`. -/
def natCmp (a b : Nat) : Ordering :=
  if a < b then Ordering.lt else if b < a then Ordering.gt else Ordering.eq

/-- Trichotomy comparator on `Int`, the model of `i64::cmp`. -/
def intCmp (a b : Int) : Ordering :=
  if a < b then Ordering.lt else if b < a then Ordering.gt else Ordering.eq

theorem natCmp_eq_iff (a b : Nat) : natCmp a b = Ordering.eq ↔ a = b := by
  unfold natCmp
  split <;> rename_i h1
  · simp; omega
  · split <;> rename_i h2
    · simp; omega
    · simp; omega

theorem natCmp_lt_iff (a b : Nat) : natCmp a b = Ordering.lt ↔ a < b := by
  unfold natCmp
  split <;> rename_i h1
  · simpa using h1
  · split <;> simp <;> omega

theorem natCmp_gt_iff (a b : Nat) : natCmp a b = Ordering.gt ↔ b < a := by
  unfold natCmp
  split <;> rename_i h1
  · simp; omega
  · split <;> rename_i h2 <;> simp <;> omega

theorem natCmp_swap (a b : Nat) : natCmp a b = (natCmp b a).swap := by
  unfold natCmp
  rcases Nat.lt_trichotomy a b with h | h | h
  · rw [if_pos h, if_neg (by omega), if_pos h]; rfl
  · subst h; rw [if_neg (by omega), if_neg (by omega)]; rfl
  · rw [if_neg (by omega), if_pos h, if_pos h]; rfl

theorem intCmp_eq_iff (a b : Int) : intCmp a b = Ordering.eq ↔ a = b := by
  unfold intCmp
  split <;> rename_i h1
  · simp; omega
  · split <;> rename_i h2
    · simp; omega
    · simp; omega

theorem intCmp_lt_iff (a b : Int) : intCmp a b = Ordering.lt ↔ a < b := by
  unfold intCmp
  split <;> rename_i h1
  · simpa using h1
  · split <;> simp <;> omega

theorem intCmp_gt_iff (a b : Int) : intCmp a b = Ordering.gt ↔ b < a := by
  unfold intCmp
  split <;> rename_i h1
  · simp; omega
  · split <;> rename_i h2 <;> simp <;> omega

theorem intCmp_swap (a b : Int) : intCmp a b = (intCmp b a).swap := by
  unfold intCmp
  rcases Int.lt_trichotomy a b with h | h | h
  · rw [if_pos h, if_neg (by omega), if_pos h]; rfl
  · subst h; rw [if_neg (by omega), if_neg (by omega)]; rfl
  · rw [if_neg (by omega), if_pos h, if_pos h]; rfl

/-! ### Character-list comparison

Rust compares the lowercased `String`s byte-wise (UTF-8); byte order on
valid UTF-8 equals code-point order, so we compare the `Char` lists. -/

/-- Comparator on characters by code point (`char` comparison in Rust). -/
def charCmp (a b : Char) : Ordering :=
  natCmp a.toNat b.toNat

/-- Lexicographic comparison of character lists, with a strict prefix
comparing less — the order `str::cmp` induces on the underlying text. -/
def listCmp : List Char → List Char → Ordering
  | [], [] => Ordering.eq
  | [], _ :: _ => Ordering.lt
  | _ :: _, [] => Ordering.gt
  | a :: as, b :: bs =>
    if charCmp a b = Ordering.eq then listCmp as bs else charCmp a b

theorem charCmp_eq_iff (a b : Char) : charCmp a b = Ordering.eq ↔ a = b := by
  unfold charCmp
  rw [natCmp_eq_iff]
  constructor
  · intro h
    exact Char.ext (UInt32.ext h)
  · intro h; rw [h]

theorem charCmp_lt_iff (a b : Char) : charCmp a b = Ordering.lt ↔ a.toNat < b.toNat :=
  natCmp_lt_iff _ _

theorem charCmp_swap (a b : Char) : charCmp a b = (charCmp b a).swap :=
  natCmp_swap _ _

theorem listCmp_eq_iff (a b : List Char) : listCmp a b = Ordering.eq ↔ a = b := by
  induction a generalizing b with
  | nil => cases b <;> simp [listCmp]
  | cons x xs ih =>
    cases b with
    | nil => simp [listCmp]
    | cons y ys =>
      by_cases h : charCmp x y = Ordering.eq
      · have hxy : x = y := (charCmp_eq_iff x y).mp h
        subst hxy
        simp [listCmp, h, ih]
      · have hxy : x ≠ y := fun hc => h ((charCmp_eq_iff x y).mpr hc)
        simp [listCmp, h, hxy]

theorem listCmp_swap (a b : List Char) : listCmp a b = (listCmp b a).swap := by
  induction a generalizing b with
  | nil => cases b <;> rfl
  | cons x xs ih =>
    cases b with
    | nil => rfl
    | cons y ys =>
      by_cases h : charCmp x y = Ordering.eq
      · have hyx : charCmp y x = Ordering.eq := by
          rw [← ordSwap_eq_iff, ← charCmp_swap]; exact h
        simp [listCmp, h, hyx, ih]
      · have hyx : charCmp y x ≠ Ordering.eq := by
          intro hc
          exact h (by rw [charCmp_swap, hc]; rfl)
        simp [listCmp, h, hyx]
        rw [charCmp_swap x y]

theorem listCmp_lt_trans {a b c : List Char} :
    listCmp a b = Ordering.lt → listCmp b c = Ordering.lt → listCmp a c = Ordering.lt := by
  induction a generalizing b c with
  | nil =>
    intro hab hbc
    cases b with
    | nil => exact absurd hab (by simp [listCmp])
    | cons y ys =>
      cases c with
      | nil => exact absurd hbc (by simp [listCmp])
      | cons z zs => simp [listCmp]
  | cons x xs ih =>
    intro hab hbc
    cases b with
    | nil => exact absurd hab (by simp [listCmp])
    | cons y ys =>
      cases c with
      | nil => exact absurd hbc (by simp [listCmp])
      | cons z zs =>
        by_cases hxy : charCmp x y = Ordering.eq
        · have hx : x = y := (charCmp_eq_iff x y).mp hxy
          subst hx
          rw [listCmp, if_pos hxy] at hab
          by_cases hyz : charCmp x z = Ordering.eq
          · have hy : x = z := (charCmp_eq_iff x z).mp hyz
            subst hy
            rw [listCmp, if_pos hyz] at hbc ⊢
            exact ih hab hbc
          · rw [listCmp, if_neg hyz] at hbc ⊢
            exact hbc
        · rw [listCmp, if_neg hxy] at hab
          by_cases hyz : charCmp y z = Ordering.eq
          · have hy : y = z := (charCmp_eq_iff y z).mp hyz
            subst hy
            rw [listCmp, if_neg hxy]
            exact hab
          · rw [listCmp, if_neg hyz] at hbc
            have hxz : x.toNat < z.toNat :=
              Nat.lt_trans ((charCmp_lt_iff x y).mp hab) ((charCmp_lt_iff y z).mp hbc)
            have hxzc : charCmp x z = Ordering.lt := (charCmp_lt_iff x z).mpr hxz
            rw [listCmp, if_neg (by rw [hxzc]; intro h; cases h)]
            exact hxzc

/-! ### Data model

Mirrors of the enums and structs of `src/main.rs` (only the fields the
embedded fragments read; display-only metadata fields are omitted). -/

/-- Mirror of `enum SortBy`. -/
inductive SortBy where
  | Name
  | Time
  | Size
  | Unsorted
deriving DecidableEq

/-- Mirror of `enum TimeField`. -/
inductive TimeField where
  | Modify
  | Change
  | Access
  | Birth
deriving DecidableEq

/-- Mirror of `enum FollowSymlinks`. -/
inductive FollowSymlinks where
  | Never
  | CommandLine
  | Always
deriving DecidableEq

/-- Snapshot of `std::fs::Metadata`, restricted to the fields the embedded
code reads: `len()`, `mtime()`, `ctime()`, `atime()` and `mode()`. -/
structure Meta where
  size : Nat
  mtime : Int
  ctime : Int
  atime : Int
  mode : Nat
deriving DecidableEq

/-- Mirror of `struct Entry`. -/
structure Entry where
  name : String
  path : String
  metadata : Meta
  is_symlink : Bool
  symlink_target : Option String
deriving DecidableEq

/-- Mirror of `struct Config`, restricted to the fields read by the
embedded fragments (`all`, `almost_all`, the sort settings and the
symlink policy); the display-only fields are omitted. -/
structure Config where
  all : Bool
  almost_all : Bool
  sort : SortBy
  reverse : Bool
  follow_symlinks : FollowSymlinks
  time_field : TimeField

/-- Mirror of `get_time_field` (src/main.rs:760-767): `Birth` falls back to
`ctime` because true creation time is unavailable. -/
def get_time_field (metadata : Meta) (field : TimeField) : Int :=
  match field with
  | TimeField.Modify => metadata.mtime
  | TimeField.Change => metadata.ctime
  | TimeField.Access => metadata.atime
  | TimeField.Birth => metadata.ctime

/-! ### Lowercasing -/

/-- Model of `str::to_lowercase` restricted to its ASCII fragment, applied
per character; the comparator only ever consumes the resulting character
sequence, so we produce the `Char` list directly. -/
def lowerChars (s : String) : List Char :=
  s.data.map Char.toLower

/-- Model of `a.to_lowercase().cmp(&b.to_lowercase())` on `String`s. -/
def lowerCmp (a b : String) : Ordering :=
  listCmp (lowerChars a) (lowerChars b)

/-! ### Comparators of `list_directory`

Each closure passed to `sort_by` / `par_sort_by` in `list_directory`
(src/main.rs:278-355) is translated separately; `Seq` names the closure of
the sequential `sort_by` branch, `Par` the closure of the `par_sort_by`
branch. -/

/-- Closure of the `SortBy::Name` sequential branch (src/main.rs:286-289). -/
def cmpNameSeq (config : Config) (a b : Entry) : Ordering :=
  let cmp := lowerCmp a.name b.name
  if config.reverse then cmp.swap else cmp

/-- Closure of the `SortBy::Name` parallel branch (src/main.rs:281-284). -/
def cmpNamePar (config : Config) (a b : Entry) : Ordering :=
  let cmp := lowerCmp a.name b.name
  if config.reverse then cmp.swap else cmp

/-- Closure of the `SortBy::Time` sequential branch (src/main.rs:308-320):
configured timestamp descending, then case-insensitive name ascending;
both keys reversed when `reverse` is set. -/
def cmpTimeSeq (config : Config) (a b : Entry) : Ordering :=
  let a_time := get_time_field a.metadata config.time_field
  let b_time := get_time_field b.metadata config.time_field
  let cmp := (intCmp a_time b_time).swap
  if cmp = Ordering.eq then
    let name_cmp := lowerCmp a.name b.name
    if config.reverse then name_cmp.swap else name_cmp
  else if config.reverse then cmp.swap else cmp

/-- Closure of the `SortBy::Time` parallel branch (src/main.rs:294-306). -/
def cmpTimePar (config : Config) (a b : Entry) : Ordering :=
  let a_time := get_time_field a.metadata config.time_field
  let b_time := get_time_field b.metadata config.time_field
  let cmp := (intCmp a_time b_time).swap
  if cmp = Ordering.eq then
    let name_cmp := lowerCmp a.name b.name
    if config.reverse then name_cmp.swap else name_cmp
  else if config.reverse then cmp.swap else cmp

/-- Closure of the `SortBy::Size` sequential branch (src/main.rs:339-352):
byte length descending, then case-insensitive name ascending; both keys
reversed when `reverse` is set. -/
def cmpSizeSeq (config : Config) (a b : Entry) : Ordering :=
  let a_size := a.metadata.size
  let b_size := b.metadata.size
  let cmp := (natCmp a_size b_size).swap
  if cmp = Ordering.eq then
    let name_cmp := lowerCmp a.name b.name
    if config.reverse then name_cmp.swap else name_cmp
  else if config.reverse then cmp.swap else cmp

/-- Closure of the `SortBy::Size` parallel branch (src/main.rs:325-337). -/
def cmpSizePar (config : Config) (a b : Entry) : Ordering :=
  let a_size := a.metadata.size
  let b_size := b.metadata.size
  let cmp := (natCmp a_size b_size).swap
  if cmp = Ordering.eq then
    let name_cmp := lowerCmp a.name b.name
    if config.reverse then name_cmp.swap else name_cmp
  else if config.reverse then cmp.swap else cmp

/-! ### Normal form for the comparator pattern -/

/-- Generic shape shared by the three comparators: a primary key compared
by `pc`, then the lowered name, with the whole composite conditionally
swapped. -/
def pairCmp {α κ : Type} (pc : κ → κ → Ordering) (k : α → κ) (low : α → List Char)
    (rev : Bool) (a b : α) : Ordering :=
  condSwap rev (lexO (pc (k a) (k b)) (listCmp (low a) (low b)))

theorem tieCmp_eq_pairCmp (rev : Bool) (c t : Ordering) :
    (if c = Ordering.eq then (if rev then t.swap else t)
     else if rev then c.swap else c) = condSwap rev (lexO c t) := by
  by_cases h : c = Ordering.eq
  · rw [if_pos h, lexO, if_pos h]
    cases rev <;> rfl
  · rw [if_neg h, lexO, if_neg h]
    cases rev <;> rfl

theorem cmpSizeSeq_eq (config : Config) (a b : Entry) :
    cmpSizeSeq config a b
      = pairCmp (fun x y => (natCmp x y).swap) (fun e => e.metadata.size)
          (fun e => lowerChars e.name) config.reverse a b := by
  unfold cmpSizeSeq pairCmp lowerCmp
  exact tieCmp_eq_pairCmp _ _ _

theorem cmpTimeSeq_eq (config : Config) (a b : Entry) :
    cmpTimeSeq config a b
      = pairCmp (fun x y => (intCmp x y).swap)
          (fun e => get_time_field e.metadata config.time_field)
          (fun e => lowerChars e.name) config.reverse a b := by
  unfold cmpTimeSeq pairCmp lowerCmp
  exact tieCmp_eq_pairCmp _ _ _

theorem cmpNameSeq_eq (config : Config) (a b : Entry) :
    cmpNameSeq config a b
      = pairCmp (fun _ _ : Unit => Ordering.eq) (fun _ => ())
          (fun e => lowerChars e.name) config.reverse a b := by
  unfold cmpNameSeq pairCmp lowerCmp
  rw [lexO, if_pos rfl]
  cases config.reverse <;> rfl

theorem cmpNamePar_eq_seq : cmpNamePar = cmpNameSeq := rfl

theorem cmpTimePar_eq_seq : cmpTimePar = cmpTimeSeq := rfl

theorem cmpSizePar_eq_seq : cmpSizePar = cmpSizeSeq := rfl

/-! ### Laws of the comparator pattern -/

theorem pairCmp_refl {α κ : Type} (pc : κ → κ → Ordering) (k : α → κ)
    (low : α → List Char) (hpc : ∀ x, pc x x = Ordering.eq) (rev : Bool) (a : α) :
    pairCmp pc k low rev a a = Ordering.eq := by
  unfold pairCmp
  rw [hpc, lexO, if_pos rfl, (listCmp_eq_iff _ _).mpr rfl]
  cases rev <;> rfl

theorem pairCmp_antisym {α κ : Type} (pc : κ → κ → Ordering) (k : α → κ)
    (low : α → List Char) (hpc : ∀ x y, pc x y = (pc y x).swap) (rev : Bool) (a b : α) :
    pairCmp pc k low rev a b = (pairCmp pc k low rev b a).swap := by
  unfold pairCmp
  have hlex : lexO (pc (k a) (k b)) (listCmp (low a) (low b))
      = (lexO (pc (k b) (k a)) (listCmp (low b) (low a))).swap := by
    rw [lexO_swap, ← hpc, ← listCmp_swap]
  rw [hlex]
  cases rev
  · rfl
  · rw [condSwap_true, condSwap_true]

theorem pairCmp_eq_iff {α κ : Type} (pc : κ → κ → Ordering) (k : α → κ)
    (low : α → List Char) (hpc : ∀ x y, pc x y = Ordering.eq ↔ x = y) (rev : Bool) (a b : α) :
    pairCmp pc k low rev a b = Ordering.eq ↔ (k a = k b ∧ low a = low b) := by
  unfold pairCmp
  have hswap : condSwap rev (lexO (pc (k a) (k b)) (listCmp (low a) (low b))) = Ordering.eq
      ↔ lexO (pc (k a) (k b)) (listCmp (low a) (low b)) = Ordering.eq := by
    cases rev
    · exact Iff.rfl
    · exact ordSwap_eq_iff _
  rw [hswap, lexO_eq_iff, hpc, listCmp_eq_iff]

theorem pairCmp_true_flip {α κ : Type} (pc : κ → κ → Ordering) (k : α → κ)
    (low : α → List Char) (hpc : ∀ x y, pc x y = (pc y x).swap) (a b : α) :
    pairCmp pc k low true a b = pairCmp pc k low false b a := by
  have h := pairCmp_antisym pc k low hpc true a b
  rw [h]
  unfold pairCmp
  rw [condSwap_true, condSwap_false, ordSwap_swap]

theorem pairCmp_lt_trans_false {α κ : Type} (pc : κ → κ → Ordering) (k : α → κ)
    (low : α → List Char) (heq : ∀ x y, pc x y = Ordering.eq ↔ x = y)
    (htr : ∀ x y z, pc x y = Ordering.lt → pc y z = Ordering.lt → pc x z = Ordering.lt)
    {a b c : α} :
    pairCmp pc k low false a b = Ordering.lt → pairCmp pc k low false b c = Ordering.lt →
    pairCmp pc k low false a c = Ordering.lt := by
  intro hab hbc
  unfold pairCmp condSwap lexO at hab hbc ⊢
  simp only [if_true, if_false, Bool.false_eq_true] at hab hbc ⊢
  by_cases h1 : pc (k a) (k b) = Ordering.eq
  · have hk1 : k a = k b := (heq _ _).mp h1
    rw [if_pos h1] at hab
    by_cases h2 : pc (k b) (k c) = Ordering.eq
    · have hk2 : k b = k c := (heq _ _).mp h2
      rw [if_pos h2] at hbc
      have hac : pc (k a) (k c) = Ordering.eq := (heq _ _).mpr (hk1.trans hk2)
      rw [if_pos hac]
      exact listCmp_lt_trans hab hbc
    · rw [if_neg h2] at hbc
      have hac : pc (k a) (k c) = Ordering.lt := by rw [hk1]; exact hbc
      rw [if_neg (by rw [hac]; intro h; cases h)]
      exact hac
  · rw [if_neg h1] at hab
    by_cases h2 : pc (k b) (k c) = Ordering.eq
    · have hk2 : k b = k c := (heq _ _).mp h2
      have hac : pc (k a) (k c) = Ordering.lt := by rw [← hk2]; exact hab
      rw [if_neg (by rw [hac]; intro h; cases h)]
      exact hac
    · rw [if_neg h2] at hbc
      have hac : pc (k a) (k c) = Ordering.lt := htr _ _ _ hab hbc
      rw [if_neg (by rw [hac]; intro h; cases h)]
      exact hac

theorem pairCmp_lt_trans {α κ : Type} (pc : κ → κ → Ordering) (k : α → κ)
    (low : α → List Char) (hswap : ∀ x y, pc x y = (pc y x).swap)
    (heq : ∀ x y, pc x y = Ordering.eq ↔ x = y)
    (htr : ∀ x y z, pc x y = Ordering.lt → pc y z = Ordering.lt → pc x z = Ordering.lt)
    (rev : Bool) {a b c : α} :
    pairCmp pc k low rev a b = Ordering.lt → pairCmp pc k low rev b c = Ordering.lt →
    pairCmp pc k low rev a c = Ordering.lt := by
  cases rev
  · exact pairCmp_lt_trans_false pc k low heq htr
  · intro hab hbc
    rw [pairCmp_true_flip pc k low hswap] at hab hbc ⊢
    exact pairCmp_lt_trans_false pc k low heq htr hbc hab

/-! ### Sorting

Rust `slice::sort_by` is a stable sort; rayon's `par_sort_by` is
documented as stable as well.  Both are modelled by the stable insertion
sort below: an element moves past another only when the comparator
answers `gt`, exactly the invariant a stable comparison sort guarantees.  -/

/-- Insert `x` into `l` after every element that compares `gt` with it. -/
def insertBy {α : Type} (cmp : α → α → Ordering) (x : α) : List α → List α
  | [] => [x]
  | y :: ys => if cmp x y = Ordering.gt then y :: insertBy cmp x ys else x :: y :: ys

/-- Stable comparison sort used to model both `sort_by` and `par_sort_by`. -/
def sortBy {α : Type} (cmp : α → α → Ordering) : List α → List α
  | [] => []
  | x :: xs => insertBy cmp x (sortBy cmp xs)

/-- Mirror of `const PARALLEL_SORT_THRESHOLD: usize = 1000`
(src/main.rs:276). -/
def PARALLEL_SORT_THRESHOLD : Nat := 1000

/-- Whether `list_directory` takes the `par_sort_by` branch: the guard
`entries.len() > PARALLEL_SORT_THRESHOLD` (src/main.rs:280/293/324). -/
def sort_uses_parallel (n : Nat) : Bool :=
  decide (n > PARALLEL_SORT_THRESHOLD)

/-- Whether the stat phase of `collect_entries` uses the worker pool:
the source applies `into_par_iter()` to `entry_data` unconditionally
(src/main.rs:446-447), so this does not depend on the candidate count. -/
def collect_stats_uses_parallel (_n : Nat) : Bool :=
  true

/-- The sorting phase of `list_directory` (src/main.rs:278-355): dispatch
on the sort mode, and within each sorted mode on the parallel-sort
threshold. -/
def list_directory_sort (config : Config) (entries : List Entry) : List Entry :=
  match config.sort with
  | SortBy.Name =>
    if entries.length > PARALLEL_SORT_THRESHOLD then sortBy (cmpNamePar config) entries
    else sortBy (cmpNameSeq config) entries
  | SortBy.Time =>
    if entries.length > PARALLEL_SORT_THRESHOLD then sortBy (cmpTimePar config) entries
    else sortBy (cmpTimeSeq config) entries
  | SortBy.Size =>
    if entries.length > PARALLEL_SORT_THRESHOLD then sortBy (cmpSizePar config) entries
    else sortBy (cmpSizeSeq config) entries
  | SortBy.Unsorted => entries

/-- Modelled from the spec: the strictly sequential sorting path the spec
prescribes for entry counts at or below the threshold (spec §5: "below
threshold, both run strictly sequentially"). -/
def list_sort_seq_spec (config : Config) (entries : List Entry) : List Entry :=
  match config.sort with
  | SortBy.Name => sortBy (cmpNameSeq config) entries
  | SortBy.Time => sortBy (cmpTimeSeq config) entries
  | SortBy.Size => sortBy (cmpSizeSeq config) entries
  | SortBy.Unsorted => entries

/-- Lawfulness bundle for an entry comparator: reflexively `eq` (so the
strict part is irreflexive), swap-antisymmetric, transitive in `lt`, and
`eq` exactly on equal sort keys. -/
def IsLawfulCmp {κ : Type} (c : Entry → Entry → Ordering) (key : Entry → κ) : Prop :=
  (∀ a, c a a = Ordering.eq) ∧
  (∀ a b, c a b = (c b a).swap) ∧
  (∀ a b d, c a b = Ordering.lt → c b d = Ordering.lt → c a d = Ordering.lt) ∧
  (∀ a b, c a b = Ordering.eq ↔ key a = key b)

theorem natCmpDesc_swap (x y : Nat) : (natCmp x y).swap = ((natCmp y x).swap).swap := by
  rw [natCmp_swap x y]

theorem intCmpDesc_swap (x y : Int) : (intCmp x y).swap = ((intCmp y x).swap).swap := by
  rw [intCmp_swap x y]

theorem cmpSizeSeq_lawful (config : Config) :
    IsLawfulCmp (cmpSizeSeq config)
      (fun e => (e.metadata.size, lowerChars e.name)) := by
  refine ⟨?_, ?_, ?_, ?_⟩
  · intro a
    rw [cmpSizeSeq_eq]
    exact pairCmp_refl _ _ _ (fun x => by rw [(natCmp_eq_iff x x).mpr rfl]; rfl) _ _
  · intro a b
    rw [cmpSizeSeq_eq, cmpSizeSeq_eq]
    exact pairCmp_antisym _ _ _ natCmpDesc_swap _ _ _
  · intro a b d hab hbd
    rw [cmpSizeSeq_eq] at hab hbd ⊢
    refine pairCmp_lt_trans _ _ _ natCmpDesc_swap
      (fun x y => by rw [ordSwap_eq_iff, natCmp_eq_iff])
      (fun x y z hxy hyz => ?_) _ hab hbd
    rw [ordSwap_lt_iff] at hxy hyz ⊢
    rw [natCmp_gt_iff] at hxy hyz ⊢
    omega
  · intro a b
    rw [cmpSizeSeq_eq]
    rw [pairCmp_eq_iff _ _ _ (fun x y => by rw [ordSwap_eq_iff, natCmp_eq_iff]) _ _]
    exact ⟨fun h => by rw [Prod.mk.injEq]; exact h, fun h => by rw [Prod.mk.injEq] at h; exact h⟩

theorem cmpTimeSeq_lawful (config : Config) :
    IsLawfulCmp (cmpTimeSeq config)
      (fun e => (get_time_field e.metadata config.time_field, lowerChars e.name)) := by
  refine ⟨?_, ?_, ?_, ?_⟩
  · intro a
    rw [cmpTimeSeq_eq]
    exact pairCmp_refl _ _ _ (fun x => by rw [(intCmp_eq_iff x x).mpr rfl]; rfl) _ _
  · intro a b
    rw [cmpTimeSeq_eq, cmpTimeSeq_eq]
    exact pairCmp_antisym _ _ _ intCmpDesc_swap _ _ _
  · intro a b d hab hbd
    rw [cmpTimeSeq_eq] at hab hbd ⊢
    refine pairCmp_lt_trans _ _ _ intCmpDesc_swap
      (fun x y => by rw [ordSwap_eq_iff, intCmp_eq_iff])
      (fun x y z hxy hyz => ?_) _ hab hbd
    rw [ordSwap_lt_iff] at hxy hyz ⊢
    rw [intCmp_gt_iff] at hxy hyz ⊢
    omega
  · intro a b
    rw [cmpTimeSeq_eq]
    rw [pairCmp_eq_iff _ _ _ (fun x y => by rw [ordSwap_eq_iff, intCmp_eq_iff]) _ _]
    exact ⟨fun h => by rw [Prod.mk.injEq]; exact h, fun h => by rw [Prod.mk.injEq] at h; exact h⟩

theorem cmpNameSeq_lawful (config : Config) :
    IsLawfulCmp (cmpNameSeq config) (fun e => lowerChars e.name) := by
  refine ⟨?_, ?_, ?_, ?_⟩
  · intro a
    rw [cmpNameSeq_eq]
    exact pairCmp_refl _ _ _ (fun _ => rfl) _ _
  · intro a b
    rw [cmpNameSeq_eq, cmpNameSeq_eq]
    exact pairCmp_antisym _ _ _ (fun _ _ => rfl) _ _ _
  · intro a b d hab hbd
    rw [cmpNameSeq_eq] at hab hbd ⊢
    refine pairCmp_lt_trans (fun _ _ : Unit => Ordering.eq) (fun _ => ())
      (fun e : Entry => lowerChars e.name) (fun _ _ => rfl)
      (fun x y => Iff.intro (fun _ => Subsingleton.elim x y) (fun _ => rfl))
      (fun _ _ _ hxy _ => nomatch hxy) _ hab hbd
  · intro a b
    rw [cmpNameSeq_eq]
    rw [pairCmp_eq_iff (fun _ _ : Unit => Ordering.eq) (fun _ => ())
      (fun e : Entry => lowerChars e.name)
      (fun x y => Iff.intro (fun _ => Subsingleton.elim x y) (fun _ => rfl)) _ _]
    exact ⟨fun h => h.2, fun h => ⟨rfl, h⟩⟩

/-! ### Entry collection (`collect_entries`, src/main.rs:394-468)

Filesystem primitives are passed in as functions: `stat` models
`fs::symlink_metadata` (`none` = the call failed), `read_link` models
`fs::read_link(..).ok()`. -/

/-- Model of `name.starts_with('.')`: the first character is a dot. -/
def startsWithDot (s : String) : Bool :=
  match s.data with
  | [] => false
  | c :: _ => c == '.'

/-- The dotfile filter applied to each raw directory entry
(src/main.rs:426-439): names starting with `.` are dropped by default,
kept unconditionally under `-a` (`config.all`), and kept except for the
`.`/`..` pseudo-entries under `-A` (`config.almost_all`). -/
def keepName (config : Config) (name : String) : Bool :=
  if startsWithDot name then
    if config.all then true
    else if config.almost_all then !(name == "." || name == "..")
    else false
  else true

/-- The hidden-entry filtering pass over the raw `read_dir` names
(the filter_map of src/main.rs:421-443, name part). -/
def filter_hidden (config : Config) (names : List String) : List String :=
  names.filter (fun n => keepName config n)

/-- Pairing each surviving name with `entry.path()` (`dir.join(name)`),
completing the `entry_data` preparation of src/main.rs:421-443. -/
def prepare_entry_data (config : Config) (dir : String) (names : List String) :
    List (String × String) :=
  (filter_hidden config names).map (fun n => (n, dir ++ "/" ++ n))

/-- Body of the stat closure of src/main.rs:448-464: resolve metadata for
one `(name, path)` candidate; `none` when `fs::symlink_metadata` fails,
dropping the candidate. -/
def resolve_entry (stat : String → Option Meta) (read_link : String → Option String)
    (np : String × String) : Option Entry :=
  match stat np.2 with
  | none => none
  | some metadata =>
    let is_symlink := metadata.mode &&& 0o170000 == 0o120000
    some { name := np.1, path := np.2, metadata := metadata, is_symlink := is_symlink,
           symlink_target := if is_symlink then read_link np.2 else none }

/-- The parallel stat fan-out of src/main.rs:446-465:
`entry_data.into_par_iter().filter_map(..).collect()`.  Rayon's indexed
`collect` preserves input order, so it is modelled by `List.filterMap`. -/
def collect_stats (stat : String → Option Meta) (read_link : String → Option String)
    (entry_data : List (String × String)) : List Entry :=
  entry_data.filterMap (resolve_entry stat read_link)

/-- Modelled from the spec: the strictly sequential per-entry metadata
resolution the spec prescribes for below-threshold candidate counts
(spec §5); a plain left-to-right `filter_map`. -/
def collect_stats_spec_seq (stat : String → Option Meta) (read_link : String → Option String)
    (entry_data : List (String × String)) : List Entry :=
  entry_data.filterMap (resolve_entry stat read_link)

/-- The directory branch of `collect_entries` (src/main.rs:417-467):
a failed `read_dir` propagates as the listing's error, otherwise the
filtered candidates are stat-resolved; entry-level stat failures never
produce an error. -/
def collect_entries_dir (read_dir_result : Except String (List String))
    (stat : String → Option Meta) (read_link : String → Option String)
    (config : Config) (dir : String) : Except String (List Entry) :=
  match read_dir_result with
  | Except.error e => Except.error e
  | Except.ok names =>
    Except.ok (collect_stats stat read_link (prepare_entry_data config dir names))

/-- What the filesystem knows about one initially named path: its
non-followed metadata (`fs::symlink_metadata`), the metadata of the final
target of the link chain (`fs::metadata`, what following would observe),
and the raw link target. -/
structure PathInfo where
  symlinkMeta : Option Meta
  followMeta : Option Meta
  readLink : Option String

/-- The single-file/symlink branch of `collect_entries`
(src/main.rs:396-415): the snapshot is always taken with
`fs::symlink_metadata`; `config` is received (as in the source) but its
`follow_symlinks` field is never consulted.  File-name extraction from
the path is elided (the name is not claim-relevant). -/
def collect_single (path : String) (info : PathInfo) (_config : Config) : Option Entry :=
  match info.symlinkMeta with
  | none => none
  | some metadata =>
    let is_symlink := metadata.mode &&& 0o170000 == 0o120000
    some { name := path, path := path, metadata := metadata, is_symlink := is_symlink,
           symlink_target := if is_symlink then info.readLink else none }

/-- Resolution of the symlink policy from the flags (src/main.rs:197-205):
`-P` wins, then `-L`, then `-H`, default `Never`. -/
def resolveFollowSymlinks (no_follow follow follow_cli : Bool) : FollowSymlinks :=
  if no_follow then FollowSymlinks.Never
  else if follow then FollowSymlinks.Always
  else if follow_cli then FollowSymlinks.CommandLine
  else FollowSymlinks.Never

/-! ### Traversal driver (`main`, src/main.rs:254-270)

The per-path pipeline is abstracted as `list_result`; `main` reports a
failure as a formatted line on the error channel and continues.  `main`
returns `()`, so the process exit status is success (0) regardless of
per-path failures. -/

/-- Diagnostic lines produced for one path by the loop body of `main`:
`eprintln!("ls: {}: {}", path.display(), e)` on failure, nothing
otherwise. -/
def runPath (list_result : String → Except String Unit) (p : String) : List String :=
  match list_result p with
  | Except.ok _ => []
  | Except.error e => ["ls: " ++ p ++ ": " ++ e]

/-- The `for path in &paths` loop of `main`: every path is processed, the
diagnostics accumulate in order. -/
def mainLoop (list_result : String → Except String Unit) : List String → List String
  | [] => []
  | p :: ps => runPath list_result p ++ mainLoop list_result ps

/-- Exit status of the process: `main` returns `()` unconditionally. -/
def mainExitCode : Nat := 0

/-- The observable outcome of `main` over the requested paths: the
diagnostic lines on the error channel, and the exit status. -/
def mainRun (list_result : String → Except String Unit) (paths : List String) :
    List String × Nat :=
  (mainLoop list_result paths, mainExitCode)

theorem mainLoop_eq_filterMap (f : String → Except String Unit) (paths : List String) :
    mainLoop f paths
      = paths.filterMap (fun p =>
          match f p with
          | Except.ok _ => none
          | Except.error e => some ("ls: " ++ p ++ ": " ++ e)) := by
  induction paths with
  | nil => rfl
  | cons p ps ih =>
    rw [mainLoop, ih, List.filterMap_cons]
    unfold runPath
    cases f p <;> rfl

/-! ### Multi-column (down) layout (`print_multi_column_down`,
src/main.rs:487-523)

The decorated names are taken as input (decoration is shared by all
shapes and not at issue here); the terminal width is a parameter
(`terminal_size().unwrap_or(80)`). Rust `str::len` is the UTF-8 byte
count, `String.utf8ByteSize` in Lean. -/

/-- Longest decorated name length:
`names.iter().map(|n| n.len()).max().unwrap_or(0)`. -/
def max_name_len (names : List String) : Nat :=
  (names.map String.utf8ByteSize).foldr max 0

/-- Column width: `max_len + 2` (the 2-character gutter). -/
def col_width (names : List String) : Nat :=
  max_name_len names + 2

/-- Number of columns: `(term_width / col_width).max(1)`. -/
def num_cols (term_width cw : Nat) : Nat :=
  max (term_width / cw) 1

/-- Number of rows: `(entries.len() + num_cols - 1) / num_cols`. -/
def num_rows (n nc : Nat) : Nat :=
  (n + nc - 1) / nc

/-- Left-justified padding to the column width, the `{:<width$}` format. -/
def padTo (w : Nat) (s : String) : String :=
  s ++ String.mk (List.replicate (w - s.length) ' ')

/-- One row of the column-major grid: the inner `for col in 0..num_cols`
loop; `none` marks a cell where `idx < entries.len()` fails and nothing
is printed. -/
def row_cells (names : List String) (nr nc cw row : Nat) : List (Option String) :=
  (List.range nc).map (fun col =>
    let idx := col * nr + row
    if idx < names.length then some (padTo cw (names.getD idx "")) else none)

/-- The full layout: one output line per row, cells joined left to right
(src/main.rs:510-520). -/
def print_multi_column_down (names : List String) (term_width : Nat) : List String :=
  if names.isEmpty then []
  else
    let cw := col_width names
    let nc := num_cols term_width cw
    let nr := num_rows names.length nc
    (List.range nr).map (fun row => String.join ((row_cells names nr nc cw row).filterMap id))

theorem num_cols_pos (tw cw : Nat) : 0 < num_cols tw cw :=
  Nat.lt_of_lt_of_le Nat.zero_lt_one (le_max_right _ 1)

theorem num_rows_le_mul (n nc : Nat) (h : 0 < nc) : n ≤ num_rows n nc * nc := by
  unfold num_rows
  have hdm := Nat.div_add_mod (n + nc - 1) nc
  have hmod : (n + nc - 1) % nc < nc := Nat.mod_lt _ h
  rw [Nat.mul_comm]
  set p := nc * ((n + nc - 1) / nc) with hp
  omega

theorem num_rows_min (n nc : Nat) (h : 0 < nc) (r : Nat) (hr : n ≤ r * nc) :
    num_rows n nc ≤ r := by
  unfold num_rows
  rw [← Nat.lt_succ_iff, Nat.div_lt_iff_lt_mul h, Nat.succ_mul]
  have hr' : n ≤ r * nc := hr
  set q := r * nc with hq
  omega

/-! ### Human-readable sizes (`format_size`, src/main.rs:792-817)

The `f64` value is modelled by an exact rational; `x as f64` is exact for
`x < 2^53` and division by 1024 is exact binary-exponent arithmetic, so
the model is faithful on that range.  `{:.0}`/`{:.1}` round the exact
value half-to-even, modelled by `roundHalfEven`. -/

/-- Mirror of `const UNITS: &[&str]`. -/
def UNITS : List String := ["B", "K", "M", "G", "T", "P"]

theorem UNITS_length : UNITS.length = 6 := rfl

/-- The division loop of `format_size`, with structural fuel
(`6 - unit_idx` bounds the iteration count since the guard requires
`unit_idx < UNITS.len() - 1`). -/
def sizeLoopAux : Nat → ℚ → Nat → ℚ × Nat
  | 0, q, idx => (q, idx)
  | fuel + 1, q, idx =>
    if 1024 ≤ q ∧ idx < UNITS.length - 1 then sizeLoopAux fuel (q / 1024) (idx + 1)
    else (q, idx)

/-- The `while size_f >= 1024.0 && unit_idx < UNITS.len() - 1` loop of
src/main.rs:805-808, started from a given unit index. -/
def sizeLoop (q : ℚ) (idx : Nat) : ℚ × Nat :=
  sizeLoopAux (UNITS.length - idx) q idx

/-- Round-half-to-even of a rational to an integer, the rounding Rust's
float formatting applies to the exact decimal value. -/
def roundHalfEven (q : ℚ) : Int :=
  let f := ⌊q⌋
  let r := q - (f : ℚ)
  if r < 1 / 2 then f
  else if 1 / 2 < r then f + 1
  else if f % 2 = 0 then f else f + 1

/-- Rendering with `{:.0}`: zero decimal places. -/
def fmt_whole (q : ℚ) : String :=
  toString (roundHalfEven q)

/-- Rendering with `{:.1}`: one decimal place. -/
def fmt_tenth (q : ℚ) : String :=
  let n := roundHalfEven (q * 10)
  toString (n / 10) ++ "." ++ toString (n % 10)

/-- Mirror of `format_size` (src/main.rs:792-817). -/
def format_size (size : Nat) (human_readable : Bool) : String :=
  if !human_readable then toString size
  else if size = 0 then "0B"
  else
    let r := sizeLoop (size : ℚ) 0
    if r.2 = 0 then toString size ++ UNITS.getD r.2 ""
    else if 10 ≤ r.1 then fmt_whole r.1 ++ UNITS.getD r.2 ""
    else fmt_tenth r.1 ++ UNITS.getD r.2 ""

/-- Modelled from the spec: divide repeatedly by 1024 while at least 1024
and a larger unit remains — i.e. scale by the largest power of 1024 not
exceeding the value, capped at the last unit — then render with no
decimal place in the whole-byte tier, one decimal place when the scaled
value is below 10, else zero decimal places. -/
def format_size_spec (size : Nat) : String :=
  if size = 0 then "0B"
  else
    let k := min (UNITS.length - 1) (Nat.log 1024 size)
    let q : ℚ := (size : ℚ) / 1024 ^ k
    if k = 0 then toString size ++ "B"
    else if q < 10 then fmt_tenth q ++ UNITS.getD k ""
    else fmt_whole q ++ UNITS.getD k ""

theorem sizeLoopAux_spec (fuel : Nat) : ∀ (i size : Nat), 1 ≤ size → i ≤ 5 →
    fuel = 6 - i → 1024 ^ i ≤ size →
    sizeLoopAux fuel ((size : ℚ) / 1024 ^ i) i
      = ((size : ℚ) / 1024 ^ (min 5 (Nat.log 1024 size)), min 5 (Nat.log 1024 size)) := by
  induction fuel with
  | zero =>
    intro i size _ hi hf _
    omega
  | succ f ih =>
    intro i size hs hi hf hp
    rw [sizeLoopAux]
    have hb : (1 : Nat) < 1024 := by norm_num
    have hn : size ≠ 0 := by omega
    have hpow_pos : (0 : ℚ) < 1024 ^ i := by positivity
    have hguard_le : ((1024 : ℚ) ≤ (size : ℚ) / 1024 ^ i) ↔ 1024 ^ (i + 1) ≤ size := by
      rw [le_div_iff₀ hpow_pos]
      have hcast : (1024 : ℚ) * 1024 ^ i = ((1024 ^ (i + 1) : ℕ) : ℚ) := by
        push_cast
        ring
      rw [hcast]
      exact Nat.cast_le
    by_cases hg : 1024 ^ (i + 1) ≤ size ∧ i < 5
    · rw [if_pos (by
        refine ⟨hguard_le.mpr hg.1, ?_⟩
        rw [UNITS_length]
        omega)]
      have hdiv : (size : ℚ) / 1024 ^ i / 1024 = (size : ℚ) / 1024 ^ (i + 1) := by
        rw [div_div, pow_succ]
      rw [hdiv]
      exact ih (i + 1) size hs (by omega) (by omega) hg.1
    · rw [if_neg (by
        rw [UNITS_length]
        intro hcontra
        exact hg ⟨hguard_le.mp hcontra.1, by omega⟩)]
      have hlog_ge : i ≤ Nat.log 1024 size := (Nat.pow_le_iff_le_log hb hn).mp hp
      by_cases hi5 : i < 5
      · have hnot : ¬ 1024 ^ (i + 1) ≤ size := fun hc => hg ⟨hc, hi5⟩
        have hlog_le : Nat.log 1024 size ≤ i := by
          by_contra hcc
          exact hnot ((Nat.pow_le_iff_le_log hb hn).mpr (by omega))
        have hlog : Nat.log 1024 size = i := le_antisymm hlog_le hlog_ge
        rw [hlog, min_eq_right (by omega)]
      · have hi5' : i = 5 := by omega
        subst hi5'
        rw [min_eq_left hlog_ge]

theorem sizeLoop_spec (size : Nat) (hs : 1 ≤ size) :
    sizeLoop (size : ℚ) 0
      = ((size : ℚ) / 1024 ^ (min 5 (Nat.log 1024 size)), min 5 (Nat.log 1024 size)) := by
  unfold sizeLoop
  rw [UNITS_length]
  have h := sizeLoopAux_spec 6 0 size hs (by omega) (by omega) (by simpa using hs)
  rw [pow_zero, div_one] at h
  exact h

/-! ### Timestamp form selection (`format_time`, src/main.rs:710-730)

`now` is the current time in seconds since the epoch (rational, since
`SystemTime::now()` has sub-second precision); `mtime` is the stored
`i64`, converted with `as u64` before being added to the epoch.  The
chrono renderings of the two patterns are external; the function returns
the chosen pattern. -/

/-- The six-month threshold `6 * 30 * 24 * 60 * 60` seconds. -/
def six_months : Nat := 6 * 30 * 24 * 60 * 60

/-- The `mtime as u64` cast of src/main.rs:713 (two's-complement wrap). -/
def mtimeAsU64 (mtime : Int) : Nat :=
  (mtime % (2 ^ 64 : Int)).toNat

/-- Mirror of `format_time`: returns the chrono format pattern chosen —
the with-year form when `now.duration_since(mtime)` fails (timestamp in
the future) or exceeds six months, the hour-minute form otherwise. -/
def format_time (now : ℚ) (mtime : Int) : String :=
  let m : ℚ := (mtimeAsU64 mtime : ℚ)
  let show_year := if m ≤ now then decide ((six_months : ℚ) < now - m) else true
  if show_year then "%b %e  %Y" else "%b %e %H:%M"

/-! ### Concrete fixtures for the claim theorems -/

/-- Metadata of a zero-byte regular file (mode `0o100644`). -/
def zeroMeta : Meta :=
  { size := 0, mtime := 0, ctime := 0, atime := 0, mode := 33188 }

/-- Resolved configuration for a plain size-mode sort. -/
def sizeConfig : Config :=
  { all := false, almost_all := false, sort := SortBy.Size, reverse := false,
    follow_symlinks := FollowSymlinks.Never, time_field := TimeField.Modify }

/-- Size-mode sort with the reverse flag set. -/
def sizeConfigRev : Config :=
  { sizeConfig with reverse := true }

/-- Zero-byte file named `a`. -/
def entryNamedA : Entry :=
  { name := "a", path := "a", metadata := zeroMeta, is_symlink := false, symlink_target := none }

/-- Zero-byte file named `b`. -/
def entryNamedB : Entry :=
  { name := "b", path := "b", metadata := zeroMeta, is_symlink := false, symlink_target := none }

/-- Zero-byte file named `A` (upper case): same size and same lowered name
as `entryNamedA`, but a different entry. -/
def entryUpperA : Entry :=
  { name := "A", path := "A", metadata := zeroMeta, is_symlink := false, symlink_target := none }

theorem pairCmp_true_swap {α κ : Type} (pc : κ → κ → Ordering) (k : α → κ)
    (low : α → List Char) (a b : α) :
    pairCmp pc k low true a b = (pairCmp pc k low false a b).swap := by
  unfold pairCmp
  rw [condSwap_true, condSwap_false]

/-! ### Claim C1 -/

/-- Claim C1: under Size or Time sort mode, setting the reverse flag
reverses the entire composite comparator (descending primary key plus
case-insensitive-name tie-break) as a whole, not just the primary key;
concretely, two zero-byte files named `b` and `a` sort as `["a", "b"]`
under size mode and as `["b", "a"]` with reverse set. -/
theorem claim_C1_composite_reverse :
    (∀ (c : Config) (a b : Entry),
        cmpSizeSeq { c with reverse := true } a b
          = (cmpSizeSeq { c with reverse := false } a b).swap)
    ∧ (∀ (c : Config) (a b : Entry),
        cmpTimeSeq { c with reverse := true } a b
          = (cmpTimeSeq { c with reverse := false } a b).swap)
    ∧ (list_directory_sort sizeConfig [entryNamedB, entryNamedA]).map Entry.name = ["a", "b"]
    ∧ (list_directory_sort sizeConfigRev [entryNamedB, entryNamedA]).map Entry.name = ["b", "a"] := by
  refine ⟨?_, ?_, by decide, by decide⟩
  · intro c a b
    rw [cmpSizeSeq_eq, cmpSizeSeq_eq]
    exact pairCmp_true_swap _ _ _ a b
  · intro c a b
    rw [cmpTimeSeq_eq, cmpTimeSeq_eq]
    exact pairCmp_true_swap _ _ _ a b

/-! ### Claim C2 -/

/-- Claim C2 counterexample: the claim says the parallel path for
per-entry metadata resolution is taken only when the candidate count
exceeds 1000, but `collect_entries` hands the candidates to the worker
pool unconditionally — already for a single candidate. -/
theorem claim_C2_counterexample :
    collect_stats_uses_parallel 1 = true ∧ ¬ (1 > PARALLEL_SORT_THRESHOLD) :=
  ⟨rfl, by decide⟩

/-- Claim C2 (amended): the sorting phase takes the parallel branch
exactly when the entry count exceeds the fixed threshold 1000, its
parallel and sequential comparators are identical so both branches
produce identical orderings; per-entry metadata resolution, however, is
always handed to the worker pool regardless of count, and (being an
order-preserving filter-map) produces the same list as the sequential
resolution the spec describes. -/
theorem claim_C2_parallel_equivalence :
    (∀ n : Nat, sort_uses_parallel n = decide (n > 1000))
    ∧ PARALLEL_SORT_THRESHOLD = 1000
    ∧ (∀ config : Config, cmpNamePar config = cmpNameSeq config)
    ∧ (∀ config : Config, cmpTimePar config = cmpTimeSeq config)
    ∧ (∀ config : Config, cmpSizePar config = cmpSizeSeq config)
    ∧ (∀ (config : Config) (entries : List Entry),
        list_directory_sort config entries = list_sort_seq_spec config entries)
    ∧ (∀ (stat : String → Option Meta) (read_link : String → Option String)
        (entry_data : List (String × String)),
        collect_stats stat read_link entry_data
          = collect_stats_spec_seq stat read_link entry_data)
    ∧ (∀ n : Nat, collect_stats_uses_parallel n = true) := by
  refine ⟨fun n => rfl, rfl, fun c => rfl, fun c => rfl, fun c => rfl, ?_,
    fun stat read_link entry_data => rfl, fun n => rfl⟩
  intro config entries
  unfold list_directory_sort list_sort_seq_spec
  cases config.sort
  · rw [cmpNamePar_eq_seq, ite_self]
  · rw [cmpTimePar_eq_seq, ite_self]
  · rw [cmpSizePar_eq_seq, ite_self]
  · rfl

/-! ### Claim C5 -/

/-- Claim C5 counterexample: the comparator is not a total order on
entries and its name tie-break does not determine the order of all
distinct entries with equal primary key — the zero-byte files `A` and
`a` are distinct yet compare `Equal` in both directions under size mode,
so their relative order is fixed only by the stability of the sort. -/
theorem claim_C5_counterexample :
    entryUpperA ≠ entryNamedA
    ∧ cmpSizeSeq sizeConfig entryUpperA entryNamedA = Ordering.eq
    ∧ cmpSizeSeq sizeConfig entryNamedA entryUpperA = Ordering.eq :=
  ⟨by decide, by decide, by decide⟩

/-- Claim C5 (amended): for every fixed sort mode and configuration the
comparator is a lawful total preorder — reflexively `Equal` (so the
strict relation is irreflexive), swap-antisymmetric, transitive, and
`Equal` exactly on equal sort keys (primary key together with the
case-insensitive name) — so it is deterministic and antisymmetric up to
the sort key, but distinct entries sharing size/time and
case-insensitive name compare `Equal` and owe their relative order to
sort stability. -/
theorem claim_C5_comparator_laws :
    ∀ config : Config,
      IsLawfulCmp (cmpNameSeq config) (fun e => lowerChars e.name)
      ∧ IsLawfulCmp (cmpTimeSeq config)
          (fun e => (get_time_field e.metadata config.time_field, lowerChars e.name))
      ∧ IsLawfulCmp (cmpSizeSeq config) (fun e => (e.metadata.size, lowerChars e.name)) :=
  fun config => ⟨cmpNameSeq_lawful config, cmpTimeSeq_lawful config, cmpSizeSeq_lawful config⟩

/-! ### Claim C8 -/

/-- A per-path pipeline that fails with `boom` on every path except
`good`. -/
def demoListResult : String → Except String Unit :=
  fun p => if p == "good" then Except.ok () else Except.error "boom"

/-- Claim C8: a top-level path that cannot be listed produces the
diagnostic `"ls: <path>: <error>"` on the error channel, the remaining
paths are still processed, and the process exit status is 0 regardless
of such failures. -/
theorem claim_C8_path_errors :
    (∀ (f : String → Except String Unit) (paths : List String),
        mainRun f paths
          = (paths.filterMap (fun p =>
              match f p with
              | Except.ok _ => none
              | Except.error e => some ("ls: " ++ p ++ ": " ++ e)), 0))
    ∧ mainRun demoListResult ["bad1", "good", "bad2"]
        = (["ls: bad1: boom", "ls: bad2: boom"], 0) := by
  refine ⟨?_, by decide⟩
  intro f paths
  unfold mainRun mainExitCode
  rw [mainLoop_eq_filterMap]

/-! ### Claim C9 -/

/-- A stat primitive failing on exactly the path `d/b`. -/
def demoStat : String → Option Meta :=
  fun p => if p == "d/b" then none else some zeroMeta

/-- A link-reading primitive that never resolves. -/
def demoReadLink : String → Option String :=
  fun _ => none

/-- Claim C9: an entry whose metadata lookup fails during collection is
silently dropped — the surviving entries are exactly the candidates with
a successful stat, in order — and the listing is still produced (the
collector returns success; entry-level failures never surface as
errors). -/
theorem claim_C9_entry_errors :
    (∀ (stat : String → Option Meta) (read_link : String → Option String)
        (entry_data : List (String × String)),
        (collect_stats stat read_link entry_data).map Entry.name
          = (entry_data.filter (fun np => (stat np.2).isSome)).map Prod.fst
        ∧ (collect_stats stat read_link entry_data).map Entry.path
          = (entry_data.filter (fun np => (stat np.2).isSome)).map Prod.snd)
    ∧ (∀ (names : List String) (stat : String → Option Meta)
        (read_link : String → Option String) (config : Config) (dir : String),
        collect_entries_dir (Except.ok names) stat read_link config dir
          = Except.ok (collect_stats stat read_link (prepare_entry_data config dir names)))
    ∧ (collect_stats demoStat demoReadLink [("a", "d/a"), ("b", "d/b"), ("c", "d/c")]).map
        Entry.name = ["a", "c"] := by
  refine ⟨?_, fun names stat read_link config dir => rfl, by decide⟩
  intro stat read_link entry_data
  induction entry_data with
  | nil => exact ⟨rfl, rfl⟩
  | cons np rest ih =>
    rcases ih with ⟨ih1, ih2⟩
    constructor
    · rw [collect_stats, List.filterMap_cons, List.filter_cons]
      cases h : stat np.2 with
      | none =>
        rw [resolve_entry, h]
        simp only [h, Option.isSome_none, Bool.false_eq_true, if_false]
        exact ih1
      | some m =>
        rw [resolve_entry, h]
        simp only [h, Option.isSome_some, if_true]
        rw [List.map_cons, List.map_cons]
        rw [collect_stats] at ih1
        rw [ih1]
    · rw [collect_stats, List.filterMap_cons, List.filter_cons]
      cases h : stat np.2 with
      | none =>
        rw [resolve_entry, h]
        simp only [h, Option.isSome_none, Bool.false_eq_true, if_false]
        exact ih2
      | some m =>
        rw [resolve_entry, h]
        simp only [h, Option.isSome_some, if_true]
        rw [List.map_cons, List.map_cons]
        rw [collect_stats] at ih2
        rw [ih2]

/-! ### Claim C3 -/

/-- Metadata of the symlink itself (mode `0o120777`, size 9 = length of
the target string). -/
def linkMeta : Meta :=
  { size := 9, mtime := 0, ctime := 0, atime := 0, mode := 41471 }

/-- Metadata of the link's final target (a 100-byte regular file). -/
def targetMeta : Meta :=
  { size := 100, mtime := 0, ctime := 0, atime := 0, mode := 33188 }

/-- A command-line symlink whose own metadata differs from its target's. -/
def linkInfo : PathInfo :=
  { symlinkMeta := some linkMeta, followMeta := some targetMeta, readLink := some "target" }

/-- Configuration with the follow-always policy (`-L`). -/
def followAlwaysConfig : Config :=
  { all := false, almost_all := false, sort := SortBy.Name, reverse := false,
    follow_symlinks := FollowSymlinks.Always, time_field := TimeField.Modify }

/-- Claim C3: the flag resolution does default to never-follow, but the
collector ignores the resolved policy entirely — for an initially named
symlink it always captures the non-followed (`symlink_metadata`)
snapshot, even under the follow-always policy, although the target's
metadata differs.  This evaluates the code at the failing input of the
claim. -/
theorem claim_C3_follow_policy_ignored :
    resolveFollowSymlinks false false false = FollowSymlinks.Never
    ∧ (∀ (c : Config) (p1 p2 : FollowSymlinks) (path : String) (info : PathInfo),
        collect_single path info { c with follow_symlinks := p1 }
          = collect_single path info { c with follow_symlinks := p2 })
    ∧ (collect_single "lnk" linkInfo followAlwaysConfig).map Entry.metadata = some linkMeta
    ∧ linkInfo.followMeta = some targetMeta
    ∧ linkMeta ≠ targetMeta :=
  ⟨rfl, fun c p1 p2 path info => rfl, by decide, rfl, by decide⟩

/-! ### Claim C4 -/

/-- Resolved configuration with hidden entries suppressed (the default). -/
def defaultHiddenConfig : Config :=
  { all := false, almost_all := false, sort := SortBy.Name, reverse := false,
    follow_symlinks := FollowSymlinks.Never, time_field := TimeField.Modify }

/-- Resolved configuration for show-hidden=all (`-a`). -/
def allHiddenConfig : Config :=
  { defaultHiddenConfig with all := true }

/-- Resolved configuration for show-hidden=almost (`-A`). -/
def almostHiddenConfig : Config :=
  { defaultHiddenConfig with almost_all := true }

theorem keepName_default (c : Config) (n : String) :
    keepName { c with all := false, almost_all := false } n = !(startsWithDot n) := by
  unfold keepName
  by_cases h : startsWithDot n <;> simp [h]

theorem keepName_all (c : Config) (n : String) :
    keepName { c with all := true } n = true := by
  unfold keepName
  by_cases h : startsWithDot n <;> simp [h]

theorem keepName_almost (c : Config) (n : String) :
    keepName { c with all := false, almost_all := true } n
      = !(n == "." || n == "..") := by
  unfold keepName
  by_cases h : startsWithDot n <;> simp only [h, if_true, if_false, Bool.false_eq_true]
  have h1 : n ≠ "." := by
    intro e
    subst e
    exact absurd (by decide : startsWithDot "." = true) (by simpa using h)
  have h2 : n ≠ ".." := by
    intro e
    subst e
    exact absurd (by decide : startsWithDot ".." = true) (by simpa using h)
  simp [h1, h2]

/-- Claim C4: names starting with `.` are hidden entirely by default,
kept unconditionally (including the `.`/`..` pseudo-entries, when
present in the input) under show-hidden=all, and kept except for `.` and
`..` under show-hidden=almost; concretely `[".hidden", "visible"]`
filters to `["visible"]` by default and is unchanged under
show-hidden=all. -/
theorem claim_C4_hidden_filtering :
    (∀ (c : Config) (names : List String),
        filter_hidden { c with all := false, almost_all := false } names
          = names.filter (fun n => !(startsWithDot n)))
    ∧ (∀ (c : Config) (names : List String),
        filter_hidden { c with all := true } names = names)
    ∧ (∀ (c : Config) (names : List String),
        filter_hidden { c with all := false, almost_all := true } names
          = names.filter (fun n => !(n == "." || n == "..")))
    ∧ filter_hidden defaultHiddenConfig [".hidden", "visible"] = ["visible"]
    ∧ filter_hidden allHiddenConfig [".hidden", "visible"] = [".hidden", "visible"]
    ∧ filter_hidden allHiddenConfig [".", "..", ".hidden", "visible"]
        = [".", "..", ".hidden", "visible"]
    ∧ filter_hidden almostHiddenConfig [".", "..", ".hidden", "visible"]
        = [".hidden", "visible"] := by
  refine ⟨?_, ?_, ?_, by decide, by decide, by decide, by decide⟩
  · intro c names
    unfold filter_hidden
    rw [show (fun n => keepName { c with all := false, almost_all := false } n)
          = (fun n : String => !(startsWithDot n)) from funext (keepName_default c)]
  · intro c names
    unfold filter_hidden
    rw [show (fun n => keepName { c with all := true } n)
          = (fun _ : String => true) from funext (keepName_all c)]
    exact List.filter_true names
  · intro c names
    unfold filter_hidden
    rw [show (fun n => keepName { c with all := false, almost_all := true } n)
          = (fun n : String => !(n == "." || n == "..")) from funext (keepName_almost c)]

/-! ### Claim C6 -/

/-- Five single-byte names, which at terminal width 7 pack into 2 columns
of width 3. -/
def namesC6 : List String := ["a", "b", "c", "d", "e"]

/-- Claim C6: in the multi-column-down layout the column width is the
longest decorated name length plus the 2-character gutter, the column
count is the terminal width divided by the column width (at least 1),
the row count is the ceiling of the entry count over the column count
(shown as: it is the least row count whose grid holds all entries), one
line is printed per row, and the cell at a given row and column shows the
entry with index `col * rows + row` (column-major). -/
theorem claim_C6_multi_column_down :
    ∀ (names : List String) (tw : Nat),
      col_width names = max_name_len names + 2
      ∧ num_cols tw (col_width names) = max (tw / col_width names) 1
      ∧ names.length
          ≤ num_rows names.length (num_cols tw (col_width names)) * num_cols tw (col_width names)
      ∧ (∀ r : Nat, names.length ≤ r * num_cols tw (col_width names) →
          num_rows names.length (num_cols tw (col_width names)) ≤ r)
      ∧ (print_multi_column_down names tw).length
          = num_rows names.length (num_cols tw (col_width names))
      ∧ (∀ row col : Nat, row < num_rows names.length (num_cols tw (col_width names)) →
          col < num_cols tw (col_width names) →
          col * num_rows names.length (num_cols tw (col_width names)) + row < names.length →
          (row_cells names (num_rows names.length (num_cols tw (col_width names)))
              (num_cols tw (col_width names)) (col_width names) row).getD col none
            = some (padTo (col_width names)
                (names.getD
                  (col * num_rows names.length (num_cols tw (col_width names)) + row) ""))) := by
  intro names tw
  have hnc : 0 < num_cols tw (col_width names) := num_cols_pos tw (col_width names)
  refine ⟨rfl, rfl, num_rows_le_mul _ _ hnc, num_rows_min _ _ hnc, ?_, ?_⟩
  · by_cases hn : names = []
    · subst hn
      unfold print_multi_column_down num_rows
      simp only [List.isEmpty_nil, if_true, List.length_nil, Nat.zero_add]
      rw [Nat.div_eq_of_lt (by omega)]
    · unfold print_multi_column_down
      rw [if_neg (by simpa using hn)]
      simp
  · intro row col _ hcol hidx
    unfold row_cells
    rw [List.getD_eq_getElem?_getD, List.getElem?_map, List.getElem?_range hcol]
    simp [hidx]

/-- Claim C6 witness: at five names of width 1 and terminal width 7 the
grid has 2 columns and 3 rows, and the cell in row 0, column 1 holds the
entry with index `1 * 3 + 0 = 3`. -/
theorem claim_C6_witness :
    (row_cells namesC6 (num_rows namesC6.length (num_cols 7 (col_width namesC6)))
        (num_cols 7 (col_width namesC6)) (col_width namesC6) 0).getD 1 none
      = some (padTo (col_width namesC6)
          (namesC6.getD
            (1 * num_rows namesC6.length (num_cols 7 (col_width namesC6)) + 0) "")) :=
  (claim_C6_multi_column_down namesC6 7).2.2.2.2.2 0 1 (by decide) (by decide) (by decide)

/-! ### Claim C7 -/

/-- Claim C7: human-readable size formatting renders 0 as `0B`; otherwise
it divides by 1024 while at least 1024 and a larger unit remains, then
prints the raw byte count in the `B` tier, one decimal place when the
scaled value is below 10, and none otherwise — equivalently the
spec-side description `format_size_spec`.  The universal part is stated
for sizes up to `2^53`, the range on which the exact rational model is
faithful to the source's `f64` arithmetic. -/
theorem claim_C7_format_size :
    format_size 0 true = "0B"
    ∧ format_size 1023 true = "1023B"
    ∧ format_size 1024 true = "1.0K"
    ∧ format_size 10240 true = "10K"
    ∧ (∀ size : Nat, size ≤ 2 ^ 53 → format_size size true = format_size_spec size) := by
  refine ⟨by norm_num [format_size],
    by norm_num [format_size, sizeLoop, sizeLoopAux, UNITS]; rfl,
    by norm_num [format_size, sizeLoop, sizeLoopAux, UNITS, fmt_tenth, roundHalfEven]; rfl,
    by norm_num [format_size, sizeLoop, sizeLoopAux, UNITS, fmt_whole, roundHalfEven]; rfl, ?_⟩
  intro size _
  by_cases h0 : size = 0
  · subst h0; rfl
  · have hs : 1 ≤ size := Nat.one_le_iff_ne_zero.mpr h0
    simp only [format_size, format_size_spec, Bool.not_true, Bool.false_eq_true, if_false,
      if_neg h0]
    rw [sizeLoop_spec size hs]
    have hUL : UNITS.length - 1 = 5 := rfl
    rw [hUL]
    simp only
    set k := min 5 (Nat.log 1024 size) with hk
    by_cases hk0 : k = 0
    · rw [if_pos hk0, if_pos hk0, hk0]
      rfl
    · rw [if_neg hk0, if_neg hk0]
      rcases lt_or_le ((size : ℚ) / 1024 ^ k) 10 with hq | hq
      · rw [if_neg (not_le.mpr hq), if_pos hq]
      · rw [if_pos hq, if_neg (not_lt.mpr hq)]

/-- Claim C7 witness: the source and the spec-side description agree at a
concrete in-range size. -/
theorem claim_C7_witness : format_size 2048 true = format_size_spec 2048 :=
  claim_C7_format_size.2.2.2.2 2048 (by norm_num)

/-! ### Claim C10 -/

/-- Claim C10: a timestamp in the future (later than the current time,
after the `as u64` cast) always selects the with-year pattern
`"%b %e  %Y"`; the hour-minute pattern `"%b %e %H:%M"` is selected
exactly when the age is between zero and the six-month threshold of
`6 * 30 * 24 * 60 * 60 = 15552000` seconds inclusive. -/
theorem claim_C10_time_form :
    six_months = 15552000
    ∧ (∀ (now : ℚ) (mtime : Int),
        (now < (mtimeAsU64 mtime : ℚ) → format_time now mtime = "%b %e  %Y")
        ∧ (format_time now mtime = "%b %e %H:%M"
            ↔ (mtimeAsU64 mtime : ℚ) ≤ now
              ∧ now - (mtimeAsU64 mtime : ℚ) ≤ (six_months : ℚ))) := by
  refine ⟨rfl, ?_⟩
  intro now mtime
  have hne : ("%b %e  %Y" : String) ≠ "%b %e %H:%M" := by decide
  constructor
  · intro h
    unfold format_time
    dsimp only
    rw [if_neg (not_le.mpr h), if_pos rfl]
  · unfold format_time
    dsimp only
    by_cases hle : (mtimeAsU64 mtime : ℚ) ≤ now
    · rw [if_pos hle]
      by_cases hd : (six_months : ℚ) < now - (mtimeAsU64 mtime : ℚ)
      · rw [if_pos (by simpa using hd)]
        simp only [hne, false_iff, not_and, not_le]
        intro _
        exact hd
      · rw [if_neg (by simpa using hd)]
        simp only [true_iff]
        exact ⟨hle, not_lt.mp hd⟩
    · rw [if_neg hle, if_pos rfl]
      simp only [hne, false_iff, not_and]
      intro h
      exact absurd h hle

/-- Claim C10 witness: at current time 0 the timestamp 1 lies in the
future, so the with-year pattern is chosen. -/
theorem claim_C10_witness : format_time 0 1 = "%b %e  %Y" := by
  have h := (claim_C10_time_form.2 0 1).1
  apply h
  norm_num [mtimeAsU64]
